import Mathlib

/-!
Shallow embedding of the myrient-cli Go program (listing parser, matcher,
FTS sanitizer, crawler, download manager) together with proofs of the
specification claims.  Go strings are modelled as Lean `String`s; the small
set of `strings.*` stdlib helpers used by the program is modelled over
`List Char` below, restricted to the ASCII behaviour the program relies on.
-/

namespace Myrient

/-- ASCII lowercasing of one character (models `strings.ToLower` per char). -/
def lowerChar (c : Char) : Char :=
  if 'A' ≤ c ∧ c ≤ 'Z' then Char.ofNat (c.toNat + 32) else c

/-- Models Go `strings.ToLower` (ASCII fragment). -/
def lowerStr (s : String) : String := ⟨s.data.map lowerChar⟩

/-- Go whitespace class used by `strings.Fields` / `strings.TrimSpace`. -/
def isSpaceChar (c : Char) : Bool :=
  c == ' ' || c == '\t' || c == '\n' || c == '\r' ||
  c == Char.ofNat 11 || c == Char.ofNat 12

/-- Drop leading whitespace characters. -/
def dropSpaces : List Char → List Char
  | [] => []
  | c :: rest => if isSpaceChar c then dropSpaces rest else c :: rest

/-- Models Go `strings.TrimSpace`. -/
def trimStr (s : String) : String :=
  ⟨((dropSpaces ((dropSpaces s.data).reverse)).reverse)⟩

/-- Split a character list into maximal whitespace-free runs
(models Go `strings.Fields`); `acc` holds the current run reversed. -/
def fieldsAux (acc : List Char) : List Char → List (List Char)
  | [] => if acc.isEmpty then [] else [acc.reverse]
  | c :: rest =>
    if isSpaceChar c then
      if acc.isEmpty then fieldsAux [] rest else acc.reverse :: fieldsAux [] rest
    else fieldsAux (c :: acc) rest

/-- Models Go `strings.Fields`. -/
def fieldsStr (s : String) : List String :=
  (fieldsAux [] s.data).map (fun l => (⟨l⟩ : String))

/-- Boolean list-prefix test. -/
def isPfxOf : List Char → List Char → Bool
  | [], _ => true
  | _ :: _, [] => false
  | a :: as, b :: bs => a == b && isPfxOf as bs

/-- Models Go `strings.HasPrefix`. -/
def strHasPfx (s p : String) : Bool := isPfxOf p.data s.data

/-- Models Go `strings.HasSuffix`. -/
def strHasSfx (s p : String) : Bool := isPfxOf p.data.reverse s.data.reverse

/-- Does `pat` occur as a contiguous run inside `l`? -/
def containsSeq (l pat : List Char) : Bool :=
  match l with
  | [] => pat.isEmpty
  | _ :: rest => isPfxOf pat l || containsSeq rest pat

/-- Models Go `strings.Contains`. -/
def strContains (s sub : String) : Bool := containsSeq s.data sub.data

/-- Models Go `strings.TrimSuffix`. -/
def strTrimSfx (s p : String) : String :=
  if strHasSfx s p then ⟨s.data.take (s.data.length - p.data.length)⟩ else s

/-- Models Go `strings.TrimPrefix`. -/
def strTrimPfx (s p : String) : String :=
  if strHasPfx s p then ⟨s.data.drop p.data.length⟩ else s

/-- Models Go `strings.EqualFold` (ASCII fragment). -/
def equalFold (a b : String) : Bool := lowerStr a == lowerStr b

/-- Hex digit value, for percent-decoding. -/
def hexVal (c : Char) : Option Nat :=
  if '0' ≤ c ∧ c ≤ '9' then some (c.toNat - 48)
  else if 'a' ≤ c ∧ c ≤ 'f' then some (c.toNat - 87)
  else if 'A' ≤ c ∧ c ≤ 'F' then some (c.toNat - 55)
  else none

/-- Percent-decoding of a character list; `none` on a malformed escape
(models Go `url.PathUnescape`). -/
def pctDecode : List Char → Option (List Char)
  | [] => some []
  | '%' :: a :: b :: rest =>
    match hexVal a, hexVal b, pctDecode rest with
    | some ha, some hb, some r => some (Char.ofNat (ha * 16 + hb) :: r)
    | _, _, _ => none
  | '%' :: _ => none
  | c :: rest =>
    match pctDecode rest with
    | some r => some (c :: r)
    | none => none

/-- Models the Go call pattern: decode, keep the original on error. -/
def pathUnescapeOrKeep (s : String) : String :=
  match pctDecode s.data with
  | some l => ⟨l⟩
  | none => s

/-! ## Matcher (cmd/myrient/main.go: tokenize, rankMatches and helpers) -/

/-- Stopword set from `tokenize`. -/
def stopwords : List String := ["a", "an", "the", "of", "and", "film", "game"]

/-- Separator characters replaced by spaces in `tokenize`. -/
def sepChar (c : Char) : Bool :=
  c == '(' || c == ')' || c == '[' || c == ']' || c == '-' ||
  c == '_' || c == ',' || c == '.' || c == '/'

/-- Embeds Go `tokenize`: lowercase, replace separators with spaces, split
on whitespace, drop tokens shorter than 2 chars and stopwords. -/
def tokenize (s : String) : List String :=
  let lowered := lowerStr s
  let replaced : List Char := lowered.data.map (fun c => if sepChar c then ' ' else c)
  let raw := (fieldsAux [] replaced).map (fun l => (⟨l⟩ : String))
  raw.filter (fun tok => decide (2 ≤ tok.data.length) && !(stopwords.contains tok))

/-- client.Entry -/
structure Entry where
  Name : String
  URL : String
  Size : String
  Date : String
  IsDir : Bool
deriving DecidableEq, Repr

/-- Embeds Go `hasLanguageTag`. -/
def hasLanguageTag (lowerName lang : String) : Bool :=
  strContains lowerName ("(" ++ lang ++ ")") ||
  strContains lowerName ("(" ++ lang ++ ",") ||
  strContains lowerName ("," ++ lang ++ ",") ||
  strContains lowerName ("," ++ lang ++ ")")

/-- Language tags probed by Go `hasAnyLanguageTag`. -/
def knownLangs : List String :=
  ["en", "de", "fr", "es", "it", "nl", "ja", "ko", "zh", "ru",
   "pt", "sv", "no", "da", "fi", "pl", "cs", "hu"]

/-- Embeds Go `hasAnyLanguageTag`. -/
def hasAnyLanguageTag (lowerName : String) : Bool :=
  knownLangs.any (fun lang => hasLanguageTag lowerName lang)

/-- Embeds Go `isNonRetail`. -/
def isNonRetail (lowerName : String) : Bool :=
  strContains lowerName "(demo" || strContains lowerName "(kiosk" ||
  strContains lowerName "(beta" || strContains lowerName "(video"

/-- The preferred-language loop of `rankMatches`: bonus of the first
matching language at index `i` is `18 - 4*i`, floored at 4. -/
def langBonus (name : String) : List String → Nat → Option Int
  | [], _ => none
  | lang :: rest, i =>
    if hasLanguageTag name lang then some (max (18 - 4 * (i : Int)) 4)
    else langBonus name rest (i + 1)

/-- The region-preference switch of `rankMatches`. -/
def regionBonus (prefer name : String) : Int :=
  if prefer == "eu" || prefer == "europe" then
    (if strContains name "(europe" then 30 else 0)
  else if prefer == "us" || prefer == "usa" || prefer == "na" then
    (if strContains name "(usa" || strContains name "(usa," then 30 else 0)
  else if prefer == "jp" || prefer == "japan" then
    (if strContains name "(japan" then 30 else 0)
  else 0

/-- Number of query tokens present among the filename's tokens
(the `tokenHits` counter of `rankMatches`). -/
def tokenHits (query name : String) : Nat :=
  ((tokenize query).filter (fun t => (tokenize (lowerStr name)).contains t)).length

/-- The `phraseHit` test of `rankMatches`: lowercased query is a literal
substring of the lowercased filename. -/
def phraseHit (query name : String) : Bool :=
  lowerStr (trimStr query) != "" && strContains (lowerStr name) (lowerStr (trimStr query))

/-- The `requiredHits` threshold of `rankMatches`. -/
def requiredHits (query : String) : Nat :=
  if 2 ≤ (tokenize query).length then 2 else 1

/-- The score accumulated by the `rankMatches` loop body for one candidate
(token hits, phrase bonus, all-matched bonus, region bonus, language
bonus/penalty, demo and virtual-console penalties). -/
def rankScore (query preferRegion : String) (preferLanguages : List String)
    (e : Entry) : Int :=
  let tokens := tokenize query
  let prefer := lowerStr (trimStr preferRegion)
  let name := lowerStr e.Name
  let hits := tokenHits query e.Name
  let base : Int := 10 * hits + (if phraseHit query e.Name then 20 else 0) +
    (if 0 < tokens.length && hits == tokens.length then 12 else 0)
  let withRegion := base + regionBonus prefer name
  let withLang := withRegion +
    (match langBonus name preferLanguages 0 with
     | some b => b
     | none => if !preferLanguages.isEmpty && hasAnyLanguageTag name then -4 else 0)
  let withDemo := withLang +
    (if strContains name "(demo" || strContains name "(kiosk" ||
        strContains name "(beta" then -50 else 0)
  withDemo + (if strContains name "wii u virtual console" then -10 else 0)

/-- The per-candidate body of the `rankMatches` loop: `none` when the
candidate is skipped (directory, exact-mode miss, or admission failure),
otherwise the accumulated score. -/
def scoreEntry (query preferRegion : String) (preferLanguages : List String)
    (exact : Bool) (e : Entry) : Option Int :=
  if e.IsDir then none
  else if exact && !(phraseHit query e.Name) then none
  else if !(phraseHit query e.Name) && tokenHits query e.Name < requiredHits query then none
  else some (rankScore query preferRegion preferLanguages e)

/-- The `sort.Slice` comparator of `rankMatches`, as the induced total
preorder: descending score, ties broken by ascending name. -/
def rankLE (a b : Entry × Int) : Bool :=
  b.2 < a.2 || (a.2 == b.2 && decide (a.1.Name ≤ b.1.Name))

/-- `rankLE` as a relation, for sorting. -/
def RankOrd (a b : Entry × Int) : Prop := rankLE a b = true

instance : DecidableRel RankOrd := fun a b => instDecidableEqBool _ _

/-- The scored, sorted candidate list built by `rankMatches` before the
final projection to entries. -/
def rankScored (entries : List Entry) (query preferRegion : String)
    (preferLanguages : List String) (exact : Bool) : List (Entry × Int) :=
  (entries.filterMap (fun e =>
    match scoreEntry query preferRegion preferLanguages exact e with
    | some score => if 0 < score then some (e, score) else none
    | none => none)).insertionSort RankOrd

/-- Embeds Go `rankMatches`. -/
def rankMatches (entries : List Entry) (query preferRegion : String)
    (preferLanguages : List String) (exact : Bool) : List Entry :=
  (rankScored entries query preferRegion preferLanguages exact).map Prod.fst

/-! ## Listing parser (internal/client/client.go)

URLs are modelled by a small structural model of Go's `net/url` parsing,
reference resolution and stringification, restricted to the URL shapes that
occur in directory listings (absolute http(s) URLs, opaque scheme URLs such
as `javascript:`/`data:`, root-relative and relative paths, queries). -/

/-- Model of a parsed `net/url` URL. -/
structure GoURL where
  scheme : String
  host : String
  path : String
  query : String
  opaq : String
deriving DecidableEq, Repr

/-- Valid scheme characters after the first (letters, digits, `+`, `-`, `.`). -/
def isSchemeChar (c : Char) : Bool :=
  ('a' ≤ c && c ≤ 'z') || ('A' ≤ c && c ≤ 'Z') || ('0' ≤ c && c ≤ '9') ||
  c == '+' || c == '-' || c == '.'

/-- Split a leading `scheme:` off a URL string; `none` when there is no
scheme (models `net/url.getScheme`).  `first` is true before the first
character, which must be a letter. -/
def schemeSplitAux (first : Bool) (acc : List Char) :
    List Char → Option (String × List Char)
  | [] => none
  | c :: rest =>
    if first then
      if ('a' ≤ c && c ≤ 'z') || ('A' ≤ c && c ≤ 'Z') then
        schemeSplitAux false [c] rest
      else none
    else
      if c = ':' then some (⟨acc.reverse⟩, rest)
      else if isSchemeChar c then schemeSplitAux false (c :: acc) rest
      else none

/-- Split a character list at the first `/`-separator into segments. -/
def splitSlash : List Char → List (List Char)
  | [] => [[]]
  | c :: rest =>
    match splitSlash rest with
    | [] => [[c]]
    | s :: ss => if c = '/' then [] :: s :: ss else (c :: s) :: ss

/-- Rejoin segments with `/`. -/
def joinSlash : List (List Char) → List Char
  | [] => []
  | [s] => s
  | s :: rest => s ++ '/' :: joinSlash rest

/-- Remove `.` and `..` segments (RFC 3986 remove_dot_segments over the
segments after the leading slash; `out` is the processed stack reversed). -/
def remDots (out : List (List Char)) : List (List Char) → List (List Char)
  | [] => out.reverse
  | seg :: rest =>
    if seg = ['.'] then
      if rest.isEmpty then ([] :: out).reverse else remDots out rest
    else if seg = ['.', '.'] then
      if rest.isEmpty then ([] :: out.tail).reverse else remDots out.tail rest
    else remDots (seg :: out) rest

/-- Remove dot segments from an absolute path (models the cleaning inside
Go `net/url.resolvePath`). -/
def cleanPathm (p : String) : String :=
  match p.data with
  | '/' :: rest => ⟨'/' :: joinSlash (remDots [] (splitSlash rest))⟩
  | _ => p

/-- The character list up to and including the last `/` (the directory part
used when merging a relative reference). -/
def upToLastSlash (l : List Char) : List Char :=
  (l.reverse.dropWhile (fun c => !(c == '/'))).reverse

/-- Models Go `net/url.resolvePath`: merge a relative path against a base
path and remove dot segments. -/
def resolvePathm (basePath refPath : String) : String :=
  let merged : List Char :=
    if strHasPfx refPath "/" then refPath.data
    else upToLastSlash basePath.data ++ refPath.data
  match merged with
  | [] => ""
  | '/' :: rest => ⟨'/' :: joinSlash (remDots [] (splitSlash rest))⟩
  | l => ⟨l⟩

/-- Models Go `net/url.Parse` on the URL shapes used here. -/
def parseURLm (s : String) : GoURL :=
  let noFrag := s.data.takeWhile (fun c => !(c == '#'))
  let beforeQ := noFrag.takeWhile (fun c => !(c == '?'))
  let qu : List Char := (noFrag.drop beforeQ.length).drop 1
  match schemeSplitAux true [] beforeQ with
  | some (sch, rest) =>
    if isPfxOf ['/', '/'] rest then
      let afterSS := rest.drop 2
      let host := afterSS.takeWhile (fun c => !(c == '/'))
      let path := afterSS.drop host.length
      { scheme := lowerStr sch, host := ⟨host⟩, path := ⟨path⟩,
        query := ⟨qu⟩, opaq := "" }
    else
      { scheme := lowerStr sch, host := "", path := "", query := ⟨qu⟩,
        opaq := ⟨rest⟩ }
  | none =>
    { scheme := "", host := "", path := ⟨beforeQ⟩, query := ⟨qu⟩, opaq := "" }

/-- Models Go `URL.String` on the URL shapes used here. -/
def urlStringm (u : GoURL) : String :=
  let qs := if u.query == "" then "" else "?" ++ u.query
  if u.opaq != "" then u.scheme ++ ":" ++ u.opaq ++ qs
  else
    (if u.scheme != "" then u.scheme ++ "://" ++ u.host
     else if u.host != "" then "//" ++ u.host
     else "") ++ u.path ++ qs

/-- Models Go `URL.ResolveReference`. -/
def resolveRefm (base ref : GoURL) : GoURL :=
  if ref.scheme != "" || ref.host != "" then
    { scheme := if ref.scheme != "" then ref.scheme else base.scheme,
      host := ref.host, opaq := ref.opaq,
      path := cleanPathm ref.path, query := ref.query }
  else if ref.opaq != "" then
    { scheme := base.scheme, host := "", opaq := ref.opaq, path := "",
      query := ref.query }
  else if ref.path == "" && ref.query == "" then
    { scheme := base.scheme, host := base.host, opaq := "",
      path := base.path, query := base.query }
  else if ref.path == "" then
    { scheme := base.scheme, host := base.host, opaq := "",
      path := cleanPathm base.path, query := ref.query }
  else
    { scheme := base.scheme, host := base.host, opaq := "",
      path := resolvePathm base.path ref.path, query := ref.query }

/-- Embeds Go `resolveURL` (client.go): parse both URLs and resolve the
reference against the base.  The modelled parser is total, so the error
case of the Go function does not arise in the model. -/
def resolveURL (base ref : String) : Option String :=
  some (urlStringm (resolveRefm (parseURLm base) (parseURLm ref)))

/-- Modelled from the spec: `isLikelyListingEntryURL`, the per-candidate
scope guard.  The function is referenced by the repository's tests
(`TestIsLikelyListingEntryURL_PathBoundary`) but its definition is not
among the provided sources.  Per the spec, a candidate's resolved absolute
URL is accepted only when it is a path-prefix descendant of the current
listing's scope, with the comparison respecting path segment boundaries:
since the listing base URL always ends in `/`, a plain string-prefix
comparison against it respects segment boundaries (`…/files/` is not a
prefix of `…/filesomething/dir/`), and the base itself is not a proper
descendant. -/
def isLikelyListingEntryURL (base resolved : String) : Bool :=
  strHasPfx resolved base && resolved != base

/-! ### HTML node model (golang.org/x/net/html node tree) -/

mutual
/-- One node of the parsed HTML document. -/
inductive Node where
  | text (s : String)
  | elem (tag : String) (attrs : List (String × String)) (children : NodeList)

/-- Sibling list of nodes. -/
inductive NodeList where
  | nil
  | cons (n : Node) (rest : NodeList)
end

mutual
/-- Embeds Go `textContent`: all text content within a node. -/
def textContent : Node → String
  | .text s => s
  | .elem _ _ children => textContentList children

def textContentList : NodeList → String
  | .nil => ""
  | .cons n rest => textContent n ++ textContentList rest
end

/-- First attribute value for a key, or "" (the Go attribute loops). -/
def attrVal (attrs : List (String × String)) (key : String) : String :=
  match attrs.find? (fun a => a.1 == key) with
  | some a => a.2
  | none => ""

mutual
/-- Embeds Go `findLink`: the first anchor's (href, title-or-text). -/
def findLink : Node → String × String
  | .text _ => ("", "")
  | .elem tag attrs children =>
    if tag == "a" then
      let href := attrVal attrs "href"
      let title := attrVal attrs "title"
      let text := textContentList children
      if title != "" then (href, title) else (href, trimStr text)
    else findLinkList children

def findLinkList : NodeList → String × String
  | .nil => ("", "")
  | .cons n rest =>
    let hl := findLink n
    if hl.1 != "" then hl else findLinkList rest
end

/-- Embeds Go `pathBase`: last path segment of a link. -/
def pathBase (link : String) : String :=
  let parsed := parseURLm link
  let path := strTrimSfx parsed.path "/"
  if path == "" then ""
  else ⟨(path.data.reverse.takeWhile (fun c => !(c == '/'))).reverse⟩

/-- Embeds Go `parseAnchorLink`, including the scope guard on the resolved
URL whose definition (`isLikelyListingEntryURL`) is modelled from the spec. -/
def parseAnchorLink (a : Node) (dirURL : String) : Option Entry :=
  let hl := findLink a
  let link := hl.1
  if link == "" then none
  else if strHasPfx link "#" || strHasPfx link "?" then none
  else if strHasPfx (lowerStr link) "javascript:" then none
  else
    let name1 := if hl.2 == "" then strTrimSfx (pathBase link) "/" else hl.2
    if name1 == "" || name1 == "." || name1 == ".." ||
        link == "../" || link == "./" then none
    else if equalFold (trimStr name1) "Parent Directory" ||
        equalFold (trimStr name1) "Parent directory/" then none
    else
      let name2 := pathUnescapeOrKeep (strTrimSfx name1 "/")
      match resolveURL dirURL link with
      | none => none
      | some fullURL =>
        if !(isLikelyListingEntryURL dirURL fullURL) then none
        else some { Name := trimStr name2, URL := fullURL, Size := "",
                    Date := "", IsDir := strHasSfx link "/" }

/-- Direct `<td>` children of a row node (the cell loop of `parseTableRow`). -/
def childTDs : Node → List Node :=
  fun n =>
    match n with
    | .text _ => []
    | .elem _ _ children => tdList children
where
  tdList : NodeList → List Node
    | .nil => []
    | .cons c rest =>
      match c with
      | .elem "td" attrs cs => Node.elem "td" attrs cs :: tdList rest
      | _ => tdList rest

/-- Embeds Go `parseTableRow`. -/
def parseTableRow (tr : Node) (dirURL : String) : Option Entry :=
  match childTDs tr with
  | [] => none
  | c0 :: restCells =>
    let hl := findLink c0
    let link := hl.1
    let name0 := hl.2
    if link == "" || name0 == "" then none
    else if name0 == "." || name0 == ".." || link == "../" || link == "./" then none
    else if name0 == "Parent directory/" then none
    else
      let isDir := strHasSfx link "/"
      let name1 := pathUnescapeOrKeep (strTrimSfx name0 "/")
      match resolveURL dirURL link with
      | none => none
      | some fullURL =>
        let sizeText := match restCells with
          | [] => ""
          | c1 :: _ => textContent c1
        let dateText := match restCells with
          | _ :: c2 :: _ => textContent c2
          | _ => ""
        some { Name := name1, URL := fullURL, Size := trimStr sizeText,
               Date := trimStr dateText, IsDir := isDir }

/-- Add a parsed entry unless its resolved URL is already in the shared
dedup set (`seen` in `parseDirectoryListing`). -/
def addEntry (st : List Entry × List String) (e : Entry) :
    List Entry × List String :=
  if st.2.contains e.URL then st else (st.1 ++ [e], e.URL :: st.2)

mutual
/-- The recursive `walk` of `parseDirectoryListing`: try the row pass on
`<tr>` nodes and the anchor pass on `<a>` nodes, sharing one dedup set,
then recurse into children. -/
def walkNode (dirURL : String) (st : List Entry × List String) :
    Node → List Entry × List String
  | .text _ => st
  | .elem tag attrs children =>
    let st1 :=
      if tag == "tr" then
        match parseTableRow (.elem tag attrs children) dirURL with
        | some e => addEntry st e
        | none => st
      else st
    let st2 :=
      if tag == "a" then
        match parseAnchorLink (.elem tag attrs children) dirURL with
        | some e => addEntry st1 e
        | none => st1
      else st1
    walkNodeList dirURL st2 children

def walkNodeList (dirURL : String) (st : List Entry × List String) :
    NodeList → List Entry × List String
  | .nil => st
  | .cons n rest => walkNodeList dirURL (walkNode dirURL st n) rest
end

/-- Embeds Go `parseDirectoryListing` on an already-parsed document tree. -/
def parseDirectoryListing (doc : Node) (dirURL : String) : List Entry :=
  (walkNode dirURL ([], []) doc).1

/-- The dedup invariant of the walk: entry URLs are pairwise distinct and
all recorded in the shared `seen` set. -/
def DedupInv (st : List Entry × List String) : Prop :=
  st.1.Pairwise (fun e1 e2 => e1.URL ≠ e2.URL) ∧ ∀ e ∈ st.1, e.URL ∈ st.2

/-- An anchor node with one href attribute and a text child. -/
def anchorNode (href txt : String) : Node :=
  Node.elem "a" [("href", href)] (NodeList.cons (Node.text txt) NodeList.nil)

/-- A table cell wrapping one node. -/
def tdCell (n : Node) : Node :=
  Node.elem "td" [] (NodeList.cons n NodeList.nil)

/-- The listing page of the Go dedup test: the same file linked from a
table row and from a stray bare anchor. -/
def sampleDedupDoc : Node :=
  Node.elem "html" [] (NodeList.cons
    (Node.elem "body" [] (NodeList.cons
      (Node.elem "table" [] (NodeList.cons
        (Node.elem "tr" [] (NodeList.cons (tdCell (anchorNode "game.zip" "game.zip"))
          (NodeList.cons (tdCell (Node.text "1.2M"))
          (NodeList.cons (tdCell (Node.text "2026-01-01")) NodeList.nil))))
        NodeList.nil))
      (NodeList.cons (anchorNode "game.zip" "game.zip") NodeList.nil)))
    NodeList.nil)

/-! ## Index store: FTS5 query sanitizer and search entry points
(internal/index/db.go) -/

/-- The FTS5 operator characters stripped from tokens by
`sanitizeFTS5Query` — parentheses, square brackets, curly braces, caret. -/
def fts5Stripped : List Char :=
  ['(', ')', '[', ']', Char.ofNat 123, Char.ofNat 125, '^']

/-- `strings.ReplaceAll w (quote) (quote-quote)`: double every double quote. -/
def doubleQuotes : List Char → List Char
  | [] => []
  | c :: rest =>
    if c == '"' then '"' :: '"' :: doubleQuotes rest else c :: doubleQuotes rest

/-- The per-word transform of `sanitizeFTS5Query`: double embedded double
quotes, then strip the FTS5 operator characters. -/
def sanitizeWord (w : String) : String :=
  ⟨(doubleQuotes w.data).filter (fun c => !(fts5Stripped.contains c))⟩

/-- Models Go `strings.Join words (single space)`. -/
def joinSpace : List String → String
  | [] => ""
  | [w] => w
  | w :: rest => w ++ " " ++ joinSpace rest

/-- Embeds Go `sanitizeFTS5Query`. -/
def sanitizeFTS5Query (query : String) : String :=
  let q := trimStr query
  if q == "" then ""
  else
    let quoted := (fieldsStr q).filterMap (fun w =>
      let w := trimStr w
      if w == "" then none
      else
        let w' := sanitizeWord w
        if w' == "" then none
        else some ("\"" ++ w' ++ "\""))
    if quoted.isEmpty then "" else joinSpace quoted

/-- A recogniser for the FTS5 phrase-sequence grammar
`quoted-phrase (space quoted-phrase)*`, where a quoted phrase is delimited
by double quotes and an embedded double quote is written doubled.  The
`expectTok` flag is `true` when the scanner expects the opening quote of
the next phrase.  This is the formal meaning of "syntactically valid
full-text query" for the sanitizer's output. -/
def scanFTS : Bool → List Char → Bool
  | true, [] => false
  | true, c :: rest => if c = '"' then scanFTS false rest else false
  | false, [] => false
  | false, [c] => decide (c = '"')
  | false, c :: d :: rest =>
    if c = '"' then
      if d = '"' then scanFTS false rest
      else if d = ' ' then scanFTS true rest
      else false
    else scanFTS false (d :: rest)

/-- A non-empty string is a valid FTS5 phrase sequence. -/
def validFTS5Tokens (s : String) : Bool := scanFTS true s.data

/-- A phrase body is well formed when every double quote in it occurs as
part of an adjacent doubled pair. -/
def goodBody : List Char → Bool
  | [] => true
  | [c] => decide (¬(c = '"'))
  | c :: d :: rest =>
    if c = '"' then decide (d = '"') && goodBody rest
    else goodBody (d :: rest)

/-- Outcome of one `DB.Search` / `DB.SearchInCollection` call: the result
rows, the returned error, and the MATCH queries issued to the engine. -/
structure SearchOutcome (σ : Type) where
  results : List σ
  err : Option String
  issued : List String
deriving Repr

/-- Embeds Go `DB.Search`, with the SQL engine abstracted as an oracle from
(MATCH query, limit) to rows-or-error. -/
def Search {σ : Type} (engine : String → Int → Except String (List σ))
    (query : String) (limit : Int) : SearchOutcome σ :=
  let lim := if limit ≤ 0 then 50 else limit
  let sanitized := sanitizeFTS5Query query
  if sanitized == "" then ⟨[], none, []⟩
  else
    match engine sanitized lim with
    | .ok rs => ⟨rs, none, [sanitized]⟩
    | .error e => ⟨[], some e, [sanitized]⟩

/-- Embeds Go `DB.SearchInCollection`, with the SQL engine abstracted as an
oracle from (MATCH query, collection LIKE pattern, limit) to rows-or-error. -/
def SearchInCollection {σ : Type}
    (engine : String → String → Int → Except String (List σ))
    (query collectionName : String) (limit : Int) : SearchOutcome σ :=
  let lim := if limit ≤ 0 then 50 else limit
  let sanitized := sanitizeFTS5Query query
  if sanitized == "" then ⟨[], none, []⟩
  else
    match engine sanitized ("%" ++ collectionName ++ "%") lim with
    | .ok rs => ⟨rs, none, [sanitized]⟩
    | .error e => ⟨[], some e, [sanitized]⟩

/-! ## Download manager (internal/downloader/downloader.go) -/

/-- downloader.Status -/
inductive Status where
  | Queued
  | Active
  | Paused
  | Completed
  | Failed
deriving DecidableEq, Repr, Fintype

/-- downloader.Item (the fields the queueing logic reads). -/
structure Item where
  id : Nat
  Name : String
  URL : String
  DestPath : String
  status : Status
deriving DecidableEq, Repr

/-- downloader.Manager state (download directory, items, id counter). -/
structure ManagerState where
  downloadDir : String
  items : List Item
  nextID : Nat
deriving DecidableEq, Repr

/-- Models Go `filepath.Join` on already-clean arguments. -/
def filepathJoin (a b : String) : String :=
  if a == "" then b else if b == "" then a else a ++ "/" ++ b

/-- The destination path computed by `Manager.Enqueue`. -/
def destPathOf (m : ManagerState) (name subdir : String) : String :=
  let destDir := if subdir != "" then filepathJoin m.downloadDir subdir
                 else m.downloadDir
  filepathJoin destDir name

/-- The duplicate test of the `Enqueue` loop: same URL or destination path,
status not Failed. -/
def isDuplicateOf (fileURL destPath : String) (it : Item) : Bool :=
  (it.URL == fileURL || it.DestPath == destPath) && !(it.status == Status.Failed)

/-- Embeds Go `Manager.Enqueue`: returns the new state, the item, and
whether a new queue entry was created. -/
def Enqueue (m : ManagerState) (name fileURL subdir : String) :
    ManagerState × Item × Bool :=
  let destPath := destPathOf m name subdir
  match m.items.find? (isDuplicateOf fileURL destPath) with
  | some it => (m, it, false)
  | none =>
    let id := m.nextID + 1
    let item : Item := ⟨id, name, fileURL, destPath, Status.Queued⟩
    ({ m with items := m.items ++ [item], nextID := id }, item, true)

/-- Embeds Go `Manager.Cancel` on one item's status (Queued/Active/Paused
become Failed with a cancellation cause; other statuses unchanged).
`Manager.CancelAll` applies the same transition to every item. -/
def cancelStatus (s : Status) : Status :=
  if s = .Queued ∨ s = .Active ∨ s = .Paused then .Failed else s

/-- Embeds Go `Manager.Pause` on one item's status (only Active or Queued
items become Paused; otherwise Pause returns false and changes nothing). -/
def pauseStatus (s : Status) : Status :=
  if s = .Active ∨ s = .Queued then .Paused else s

/-- Embeds Go `Manager.Resume` on one item's status. -/
def resumeStatus (s : Status) : Status :=
  if s = .Paused then .Queued else s

/-- Embeds Go `Manager.Retry` on one item's status. -/
def retryStatus (s : Status) : Status :=
  if s = .Failed then .Queued else s

/-- Embeds the entry guard of `Manager.processItem`: an item found Failed
with a cancellation cause, or Paused, is left unchanged; otherwise the item
becomes Active.  `errIsCancelled` tells whether the item's error is the
cancellation cause. -/
def processStartStatus (errIsCancelled : Bool) : Status → Status
  | .Failed => if errIsCancelled then .Failed else .Active
  | .Paused => .Paused
  | _ => .Active

/-- Download outcomes distinguished by `processItem`. -/
inductive DLErr where
  | canceled
  | other
deriving DecidableEq, Repr, Fintype

/-- Embeds the completion branch of `Manager.processItem`: no error marks
Completed; a context-cancellation error marks Failed unless the item was
already Paused; any other error marks Failed. -/
def processFinishStatus : Option DLErr → Status → Status
  | none, _ => .Completed
  | some .canceled, s => if s = .Paused then s else .Failed
  | some .other, _ => .Failed

/-- The per-item state machine edges as the claim states them. -/
def claimedEdges : List (Status × Status) :=
  [(.Queued, .Active), (.Active, .Completed), (.Active, .Failed),
   (.Active, .Paused), (.Paused, .Queued), (.Failed, .Queued)]

/-- The edges the code actually follows: the claimed ones plus pausing a
not-yet-started (Queued) item and cancelling a Queued or Paused item. -/
def amendedEdges : List (Status × Status) :=
  claimedEdges ++ [(.Queued, .Paused), (.Queued, .Failed), (.Paused, .Failed)]

/-! ### Transfer-level model (Client.DownloadFile and Manager.downloadFile) -/

/-- An HTTP response to a download request. -/
structure DLResponse where
  status : Nat
  contentType : String
  contentLength : Int
  body : List Nat
deriving DecidableEq, Repr

/-- The Range header construction of `Client.DownloadFile`: only set when
resuming from a positive offset, open-ended. -/
def rangeHeader (resumeFrom : Int) : Option String :=
  if 0 < resumeFrom then some ("bytes=" ++ toString resumeFrom ++ "-") else none

/-- Embeds Go `Client.DownloadFile` (rate limiting and the Referer header
are outside the model; the server is an oracle from the optional Range
header to a response): non-2xx statuses are errors, an HTML content type
for a non-.html URL is an error, a 206 response records "resumed". -/
def clientDownloadFile (server : Option String → DLResponse) (fileURL : String)
    (resumeFrom : Int) : Except String (List Nat × Int × Bool) :=
  let resp := server (rangeHeader resumeFrom)
  let resumed := resp.status == 206
  if resp.status != 200 && resp.status != 206 then .error "HTTP error"
  else if strContains (lowerStr resp.contentType) "text/html" &&
      !(strHasSfx (lowerStr fileURL) ".html") &&
      !(strHasSfx (lowerStr fileURL) ".htm") then .error "refusing HTML response"
  else .ok (resp.body, resp.contentLength, resumed)

/-- Observable result of one `Manager.downloadFile` run. -/
structure TransferResult where
  finalFile : List Nat
  totalBytes : Int
  doneBytes : Int
  usedRange : Option String
deriving DecidableEq, Repr

/-- Embeds Go `Manager.downloadFile`: the `.part` file (if any) supplies
the resume offset; on a resumed (206) response the part content is kept
and appended to, otherwise the file is truncated; on success the part file
becomes the destination file. -/
def managerDownloadFile (server : Option String → DLResponse) (fileURL : String)
    (part : Option (List Nat)) : Except String TransferResult :=
  let resumeFrom : Int := match part with
    | some bs => (bs.length : Int)
    | none => 0
  match clientDownloadFile server fileURL resumeFrom with
  | .error e => .error e
  | .ok (body, contentLength, resumed) =>
    let total : Int := if 0 < contentLength then
        (if resumed then resumeFrom + contentLength else contentLength)
      else 0
    let initial : List Nat := if resumed then
        (match part with | some bs => bs | none => [])
      else []
    let done0 : Int := if resumed then resumeFrom else 0
    .ok { finalFile := initial ++ body, totalBytes := total,
          doneBytes := done0 + (body.length : Int),
          usedRange := rangeHeader resumeFrom }

/-! ## Crawler and index store staleness (internal/index/crawler.go,
internal/index/db.go) -/

/-- A row of the directories table (path is the natural key; the
collection id column is not needed by the claims). -/
structure DirRow where
  path : String
  lastCrawled : Option Int
deriving DecidableEq, Repr

/-- A row of the files table (directory keyed by path in the model). -/
structure FileRow where
  name : String
  path : String
  url : String
  size : String
  date : String
  dirPath : String
deriving DecidableEq, Repr

/-- The index database state. -/
structure IndexDB where
  dirs : List DirRow
  files : List FileRow
deriving DecidableEq, Repr

/-- Embeds `DB.UpsertDirectory`: insert on first sight (the on-conflict
update touches only the collection id, which is not modelled). -/
def upsertDirectory (db : IndexDB) (path : String) : IndexDB :=
  if db.dirs.any (fun d => d.path == path) then db
  else { db with dirs := db.dirs ++ [⟨path, none⟩] }

/-- Embeds `DB.ClearDirectoryFiles`. -/
def clearDirectoryFiles (db : IndexDB) (dirPath : String) : IndexDB :=
  { db with files := db.files.filter (fun f => !(f.dirPath == dirPath)) }

/-- Embeds `DB.InsertFileBatch` (one transactional batch append). -/
def insertFileBatch (db : IndexDB) (fs : List FileRow) : IndexDB :=
  { db with files := db.files ++ fs }

/-- Embeds `DB.MarkDirectoryCrawled` at the current time `now`. -/
def markDirectoryCrawled (db : IndexDB) (dirPath : String) (now : Int) : IndexDB :=
  { db with dirs := db.dirs.map (fun d =>
      if d.path == dirPath then { d with lastCrawled := some now } else d) }

/-- Embeds `DB.IsDirectoryStale` with time measured in hours: stale when
the directory is unknown, its timestamp is null, or strictly older than
`staleDays * 24` hours. -/
def isDirectoryStale (db : IndexDB) (path : String) (staleDays now : Int) : Bool :=
  match db.dirs.find? (fun d => d.path == path) with
  | none => true
  | some d =>
    match d.lastCrawled with
    | none => true
    | some t => decide (staleDays * 24 < now - t)

/-- Crawl state: the database, the progress counters of `Crawler`, and the
list of listing fetches issued (observability of `ListDirectory` calls). -/
structure CrawlState where
  db : IndexDB
  dirsProcessed : Int
  filesFound : Int
  errors : Int
  fetched : List String
deriving DecidableEq, Repr

/-- The file batch built by `crawlDir` from a listing. -/
def fileBatch (dirPath : String) (entries : List Entry) : List FileRow :=
  (entries.filter (fun e => !e.IsDir)).map (fun e =>
    ⟨e.Name, dirPath ++ e.Name, e.URL, e.Size, e.Date, dirPath⟩)

/-- The subdirectory paths visited by `crawlDir` from a listing. -/
def subdirPaths (dirPath : String) (entries : List Entry) : List String :=
  (entries.filter (fun e => e.IsDir)).map (fun e => dirPath ++ e.Name ++ "/")

/-- Embeds `Crawler.crawlDir`: unless forced, a fresh directory is skipped
with the processed counter still incremented; otherwise the listing is
fetched (a fetch failure counts an error and fails the call), the
directory is upserted, its files cleared and batch-reinserted, its
last-crawled timestamp set, and the subdirectories crawled recursively,
counting but not propagating their errors.  `fuel` bounds the recursion
depth (the remote tree is finite); the Boolean result is the error status
of the call. -/
def crawlDir (listing : String → Option (List Entry)) (force : Bool)
    (staleDays now : Int) : Nat → CrawlState → String → CrawlState × Bool
  | 0, st, _ => (st, true)
  | fuel + 1, st, dirPath =>
    if !force && !(isDirectoryStale st.db dirPath staleDays now) then
      ({ st with dirsProcessed := st.dirsProcessed + 1 }, false)
    else
      match listing dirPath with
      | none =>
        ({ st with errors := st.errors + 1, fetched := st.fetched ++ [dirPath] },
          true)
      | some entries =>
        let files := fileBatch dirPath entries
        let db1 := clearDirectoryFiles (upsertDirectory st.db dirPath) dirPath
        let db2 := if files.isEmpty then db1 else insertFileBatch db1 files
        let db3 := markDirectoryCrawled db2 dirPath now
        let st1 : CrawlState :=
          { db := db3, dirsProcessed := st.dirsProcessed + 1,
            filesFound := st.filesFound +
              (if files.isEmpty then 0 else (files.length : Int)),
            errors := st.errors, fetched := st.fetched ++ [dirPath] }
        ((subdirPaths dirPath entries).foldl (fun acc sd =>
          let r := crawlDir listing force staleDays now fuel acc sd
          if r.2 then { r.1 with errors := r.1.errors + 1 } else r.1) st1,
          false)

/-- The per-subdirectory step of the recursion loop in `crawlDir`. -/
def crawlStep (listing : String → Option (List Entry)) (force : Bool)
    (staleDays now : Int) (fuel : Nat) (acc : CrawlState) (sd : String) :
    CrawlState :=
  let r := crawlDir listing force staleDays now fuel acc sd
  if r.2 then { r.1 with errors := r.1.errors + 1 } else r.1

/-- The state reached by `crawlDir` after processing one directory's
listing, before recursing into its subdirectories. -/
def crawlBody (st : CrawlState) (p : String) (now : Int)
    (entries : List Entry) : CrawlState :=
  { db := markDirectoryCrawled
      (if (fileBatch p entries).isEmpty then
        clearDirectoryFiles (upsertDirectory st.db p) p
      else insertFileBatch (clearDirectoryFiles (upsertDirectory st.db p) p)
        (fileBatch p entries)) p now,
    dirsProcessed := st.dirsProcessed + 1,
    filesFound := st.filesFound +
      (if (fileBatch p entries).isEmpty then 0
       else ((fileBatch p entries).length : Int)),
    errors := st.errors,
    fetched := st.fetched ++ [p] }

/-- The files the database holds for one directory. -/
def filesOf (db : IndexDB) (p : String) : List FileRow :=
  db.files.filter (fun f => f.dirPath == p)

/-- The last-crawled column of one directory (`none` when the directory is
unknown). -/
def lastCrawledOf (db : IndexDB) (p : String) : Option (Option Int) :=
  (db.dirs.find? (fun d => d.path == p)).map (fun d => d.lastCrawled)

/-- A test server answering range "bytes=3-" with 206 and two more bytes. -/
def srvResume : Option String → DLResponse := fun h =>
  if h = some "bytes=3-" then ⟨206, "application/octet-stream", 2, [9, 8]⟩
  else ⟨400, "", 0, []⟩

/-- A test server answering every request with 200 and a two-byte body. -/
def srvPlain : Option String → DLResponse := fun _ =>
  ⟨200, "application/zip", 2, [7, 7]⟩

/-! ## Theorems -/

theorem rankLE_total (a b : Entry × Int) : rankLE a b = true ∨ rankLE b a = true := by
  simp only [rankLE, Bool.or_eq_true, Bool.and_eq_true, decide_eq_true_eq, beq_iff_eq]
  rcases lt_trichotomy a.2 b.2 with h | h | h
  · exact Or.inr (Or.inl h)
  · rcases le_total a.1.Name b.1.Name with hn | hn
    · exact Or.inl (Or.inr ⟨h, hn⟩)
    · exact Or.inr (Or.inr ⟨h.symm, hn⟩)
  · exact Or.inl (Or.inl h)

theorem rankLE_trans {a b c : Entry × Int} (h1 : rankLE a b = true)
    (h2 : rankLE b c = true) : rankLE a c = true := by
  simp only [rankLE, Bool.or_eq_true, Bool.and_eq_true, decide_eq_true_eq,
    beq_iff_eq] at h1 h2 ⊢
  rcases h1 with h1 | ⟨h1, h1'⟩ <;> rcases h2 with h2 | ⟨h2, h2'⟩
  · exact Or.inl (h2.trans h1)
  · exact Or.inl (h2 ▸ h1)
  · exact Or.inl (h1 ▸ h2)
  · exact Or.inr ⟨h1.trans h2, h1'.trans h2'⟩

instance : IsTotal (Entry × Int) RankOrd := ⟨rankLE_total⟩

instance : IsTrans (Entry × Int) RankOrd := ⟨fun _ _ _ => rankLE_trans⟩

theorem scoreEntry_eq_some {q pr : String} {pls : List String} {ex : Bool}
    {e : Entry} {s : Int} (h : scoreEntry q pr pls ex e = some s) :
    e.IsDir = false ∧ (ex = true → phraseHit q e.Name = true) ∧
      (phraseHit q e.Name = true ∨ requiredHits q ≤ tokenHits q e.Name) ∧
      s = rankScore q pr pls e := by
  unfold scoreEntry at h
  split at h
  next => cases h
  next hdir =>
    split at h
    next => cases h
    next hex =>
      split at h
      next => cases h
      next hadm =>
        have hs := Option.some.inj h
        refine ⟨by simpa using hdir, ?_, ?_, hs.symm⟩
        · intro hexx
          by_contra hph
          apply hex
          refine (Bool.and_eq_true _ _).mpr ⟨hexx, ?_⟩
          simp only [Bool.not_eq_true']
          simpa using hph
        · by_cases hph : phraseHit q e.Name = true
          · exact Or.inl hph
          · refine Or.inr ?_
            by_contra hlt
            apply hadm
            refine (Bool.and_eq_true _ _).mpr ⟨?_, ?_⟩
            · simp only [Bool.not_eq_true']
              simpa using hph
            · simp only [decide_eq_true_eq]
              omega

theorem mem_rankScored {entries : List Entry} {q pr : String} {pls : List String}
    {ex : Bool} {p : Entry × Int} (h : p ∈ rankScored entries q pr pls ex) :
    p.1 ∈ entries ∧ scoreEntry q pr pls ex p.1 = some p.2 ∧ 0 < p.2 := by
  unfold rankScored at h
  rw [List.mem_insertionSort] at h
  obtain ⟨e, he, hf⟩ := List.mem_filterMap.mp h
  revert hf
  cases hsc : scoreEntry q pr pls ex e with
  | none => intro hf; cases hf
  | some score =>
    intro hf
    by_cases hpos : (0:Int) < score
    · simp only [hpos, if_pos] at hf
      cases hf
      exact ⟨he, hsc, hpos⟩
    · simp [hpos] at hf

/-- C6: for every non-directory candidate and every query, the matcher admits
a candidate into the result list only if it has a phrase hit or at least
`requiredHits` token hits (1 for a ≤1-token query, 2 for a multi-token
query); in exact mode a phrase hit is mandatory. -/
theorem C6_admission_filter (entries : List Entry) (q pr : String)
    (pls : List String) (ex : Bool) (e : Entry)
    (he : e ∈ rankMatches entries q pr pls ex) :
    e.IsDir = false ∧
      (phraseHit q e.Name = true ∨ requiredHits q ≤ tokenHits q e.Name) ∧
      (ex = true → phraseHit q e.Name = true) := by
  obtain ⟨p, hp, hfst⟩ := List.mem_map.mp he
  obtain ⟨_, hsc, _⟩ := mem_rankScored hp
  obtain ⟨hdir, hex, hadm, _⟩ := scoreEntry_eq_some hsc
  subst hfst
  exact ⟨hdir, hadm, hex⟩

/-- C6 witness at a concrete input. -/
theorem C6_admission_filter_witness :
    (⟨"Mario Kart (USA).zip", "u", "", "", false⟩ : Entry) ∈
        rankMatches [⟨"Mario Kart (USA).zip", "u", "", "", false⟩] "mario" "" [] false ∧
      ((⟨"Mario Kart (USA).zip", "u", "", "", false⟩ : Entry).IsDir = false ∧
        (phraseHit "mario" "Mario Kart (USA).zip" = true ∨
          requiredHits "mario" ≤ tokenHits "mario" "Mario Kart (USA).zip") ∧
        (false = true → phraseHit "mario" "Mario Kart (USA).zip" = true)) :=
  ⟨by decide, C6_admission_filter [⟨"Mario Kart (USA).zip", "u", "", "", false⟩]
    "mario" "" [] false ⟨"Mario Kart (USA).zip", "u", "", "", false⟩ (by decide)⟩

/-- C7: the matcher's output is the projection of a scored list in which
every candidate is a non-directory with strictly positive score, sorted
descending by score with ties broken by ascending filename; being a pure
function of its arguments, it is deterministic. -/
theorem C7_output_sorted (entries : List Entry) (q pr : String)
    (pls : List String) (ex : Bool) :
    rankMatches entries q pr pls ex = (rankScored entries q pr pls ex).map Prod.fst ∧
      (∀ p ∈ rankScored entries q pr pls ex,
        p.1.IsDir = false ∧ 0 < p.2 ∧ scoreEntry q pr pls ex p.1 = some p.2) ∧
      (rankScored entries q pr pls ex).Pairwise RankOrd := by
  refine ⟨rfl, ?_, ?_⟩
  · intro p hp
    obtain ⟨_, hsc, hpos⟩ := mem_rankScored hp
    exact ⟨(scoreEntry_eq_some hsc).1, hpos, hsc⟩
  · exact List.sorted_insertionSort RankOrd _

/-- C7 witness at a concrete input. -/
theorem C7_output_sorted_witness :
    ((⟨"Mario Kart (USA).zip", "u", "", "", false⟩, (42:Int)) ∈
        rankScored [⟨"Mario Kart (USA).zip", "u", "", "", false⟩] "mario" "" [] false) ∧
      ((⟨"Mario Kart (USA).zip", "u", "", "", false⟩ : Entry).IsDir = false ∧
        (0:Int) < 42 ∧
        scoreEntry "mario" "" [] false ⟨"Mario Kart (USA).zip", "u", "", "", false⟩ =
          some 42) :=
  ⟨by decide,
    (C7_output_sorted [⟨"Mario Kart (USA).zip", "u", "", "", false⟩] "mario" "" []
      false).2.1 (⟨"Mario Kart (USA).zip", "u", "", "", false⟩, (42:Int)) (by decide)⟩

theorem goodBody_cons_pair {l : List Char} (h : goodBody l = true) :
    goodBody ('"' :: '"' :: l) = true := by
  simp [goodBody, h]

theorem goodBody_cons_ne {c : Char} (hc : ¬(c = '"')) {l : List Char}
    (h : goodBody l = true) : goodBody (c :: l) = true := by
  cases l with
  | nil => simp [goodBody, hc]
  | cons d t => simpa [goodBody, hc] using h

theorem goodBody_sanitizeWord (l : List Char) :
    goodBody ((doubleQuotes l).filter (fun c => !(fts5Stripped.contains c))) = true := by
  induction l with
  | nil => rfl
  | cons c l ih =>
    by_cases hc : c = '"'
    · subst hc
      have hkeep : (!(fts5Stripped.contains '"')) = true := by decide
      simp only [doubleQuotes, beq_self_eq_true, if_true, List.filter_cons, hkeep]
      exact goodBody_cons_pair ih
    · have hbeq : (c == '"') = false := by simpa using hc
      simp only [doubleQuotes, hbeq, Bool.false_eq_true, if_false, List.filter_cons]
      by_cases hp : (!(fts5Stripped.contains c)) = true
      · rw [hp]
        exact goodBody_cons_ne hc ih
      · simp only [Bool.not_eq_true] at hp
        rw [hp]
        exact ih

theorem scanFTS_body_close :
    ∀ body : List Char, goodBody body = true → scanFTS false (body ++ ['"']) = true
  | [], _ => rfl
  | [c], h => by
    have hc : ¬(c = '"') := by simpa [goodBody] using h
    simpa [scanFTS, hc] using rfl
  | c :: d :: rest, h => by
    by_cases hc : c = '"'
    · subst hc
      have hd : d = '"' ∧ goodBody rest = true := by simpa [goodBody] using h
      obtain ⟨rfl, hgb⟩ := hd
      simpa [scanFTS] using scanFTS_body_close rest hgb
    · have hgb : goodBody (d :: rest) = true := by simpa [goodBody, hc] using h
      simpa [scanFTS, hc] using scanFTS_body_close (d :: rest) hgb

theorem scanFTS_body_space :
    ∀ body : List Char, ∀ rest : List Char, goodBody body = true →
      scanFTS false (body ++ '"' :: ' ' :: rest) = scanFTS true rest
  | [], rest, _ => by simp [scanFTS]
  | [c], rest, h => by
    have hc : ¬(c = '"') := by simpa [goodBody] using h
    simp [scanFTS, hc]
  | c :: d :: body, rest, h => by
    by_cases hc : c = '"'
    · subst hc
      have hd : d = '"' ∧ goodBody body = true := by simpa [goodBody] using h
      obtain ⟨rfl, hgb⟩ := hd
      simpa [scanFTS] using scanFTS_body_space body rest hgb
    · have hgb : goodBody (d :: body) = true := by simpa [goodBody, hc] using h
      simpa [scanFTS, hc] using scanFTS_body_space (d :: body) rest hgb

/-- Every string in the sanitizer's quoted-token list scans as one phrase
followed by the remainder. -/
theorem scanFTS_joinSpace :
    ∀ ws : List String,
      (∀ t ∈ ws, ∃ b : String, t = "\"" ++ b ++ "\"" ∧ goodBody b.data = true) →
      ws ≠ [] → scanFTS true (joinSpace ws).data = true
  | [], _, hne => absurd rfl hne
  | [t], hws, _ => by
    obtain ⟨b, rfl, hgb⟩ := hws t (List.mem_singleton.mpr rfl)
    have hdata : (joinSpace ["\"" ++ b ++ "\""]).data = '"' :: (b.data ++ ['"']) := by
      simp [joinSpace, String.data_append]
    rw [hdata]
    simpa [scanFTS] using scanFTS_body_close b.data hgb
  | t :: t' :: ws, hws, _ => by
    obtain ⟨b, rfl, hgb⟩ := hws t (List.mem_cons_self _ _)
    have hrest : scanFTS true (joinSpace (t' :: ws)).data = true :=
      scanFTS_joinSpace (t' :: ws)
        (fun u hu => hws u (List.mem_cons_of_mem _ hu)) (by simp)
    have hdata : (joinSpace (("\"" ++ b ++ "\"") :: t' :: ws)).data =
        '"' :: (b.data ++ '"' :: ' ' :: (joinSpace (t' :: ws)).data) := by
      simp [joinSpace, String.data_append]
    rw [hdata]
    have hsp := scanFTS_body_space b.data (joinSpace (t' :: ws)).data hgb
    simpa [scanFTS, hsp] using hrest

/-- C8: for every input string the sanitizer's output is either empty or a
syntactically valid FTS5 phrase-sequence query (whitespace-split tokens,
operator characters stripped, embedded quotes doubled, each token quoted,
joined by spaces — implicit AND), so no user input can cause a query
syntax error; in particular "mario (usa)" sanitizes to two quoted tokens. -/
theorem C8_sanitizer_safety :
    (∀ query : String, sanitizeFTS5Query query = "" ∨
        validFTS5Tokens (sanitizeFTS5Query query) = true) ∧
      sanitizeFTS5Query "mario (usa)" = "\"mario\" \"usa\"" := by
  refine ⟨?_, by decide⟩
  intro query
  by_cases hq : (trimStr query == "") = true
  · refine Or.inl ?_
    unfold sanitizeFTS5Query
    simp [hq]
  · set quoted := (fieldsStr (trimStr query)).filterMap (fun w =>
      if trimStr w == "" then none
      else
        if sanitizeWord (trimStr w) == "" then none
        else some ("\"" ++ sanitizeWord (trimStr w) ++ "\"")) with hquoted
    have hsan : sanitizeFTS5Query query =
        if quoted.isEmpty then "" else joinSpace quoted := by
      simp only [sanitizeFTS5Query]
      rw [if_neg hq, hquoted]
    by_cases hemp : quoted.isEmpty = true
    · refine Or.inl ?_
      rw [hsan, if_pos hemp]
    · refine Or.inr ?_
      rw [hsan, if_neg hemp]
      unfold validFTS5Tokens
      refine scanFTS_joinSpace quoted ?_ (by simpa [List.isEmpty_iff] using hemp)
      intro t ht
      rw [hquoted] at ht
      obtain ⟨w, _, hf⟩ := List.mem_filterMap.mp ht
      refine ⟨sanitizeWord (trimStr w), ?_, goodBody_sanitizeWord (trimStr w).data⟩
      split at hf
      · cases hf
      · split at hf
        · cases hf
        · exact (Option.some.inj hf).symm

/-- C10: when the sanitized query is empty (empty, all-whitespace, or
all tokens stripped), Search and SearchInCollection return an empty result
set and no error without issuing any query to the engine; moreover the
empty, whitespace-only and operator-only queries all sanitize to empty. -/
theorem C10_empty_query_no_search (σ : Type)
    (engine : String → Int → Except String (List σ))
    (engine2 : String → String → Int → Except String (List σ))
    (query coll : String) (limit : Int)
    (h : sanitizeFTS5Query query = "") :
    Search engine query limit = ⟨[], none, []⟩ ∧
      SearchInCollection engine2 query coll limit = ⟨[], none, []⟩ ∧
      sanitizeFTS5Query "" = "" ∧ sanitizeFTS5Query "   " = "" ∧
      sanitizeFTS5Query "()\x7b\x7d[]^" = "" := by
  refine ⟨?_, ?_, by decide, by decide, by decide⟩
  · unfold Search
    simp [h]
  · unfold SearchInCollection
    simp [h]

theorem parseAnchorLink_guard_none (dirURL : String) (a : Node) (u : String)
    (hres : resolveURL dirURL (findLink a).1 = some u)
    (hg : isLikelyListingEntryURL dirURL u = false) :
    parseAnchorLink a dirURL = none := by
  unfold parseAnchorLink
  dsimp only
  rw [hres]
  simp [hg, ite_self]

/-- C1: the anchor parser rejects every candidate whose resolved absolute
URL fails the scope guard (not a proper path-segment descendant of the
listing base); in particular an href resolving to host/filesomething/dir/
under base host/files/ is rejected, as are parent/self references,
javascript: and data: hrefs, and query-only hrefs, while a true same-host
descendant is accepted. -/
theorem C1_scope_guard (dirURL : String) (a : Node) (u : String)
    (hres : resolveURL dirURL (findLink a).1 = some u)
    (hg : isLikelyListingEntryURL dirURL u = false) :
    parseAnchorLink a dirURL = none ∧
      isLikelyListingEntryURL "https://example.com/files/"
        "https://example.com/filesomething/dir/" = false ∧
      parseAnchorLink (anchorNode "https://example.com/filesomething/dir/" "dir")
        "https://example.com/files/" = none ∧
      parseAnchorLink (anchorNode "../" "Parent Directory")
        "https://example.com/files/" = none ∧
      parseAnchorLink (anchorNode "./" ".") "https://example.com/files/" = none ∧
      parseAnchorLink (anchorNode "?C=N;O=D" "Name")
        "https://example.com/files/" = none ∧
      parseAnchorLink (anchorNode "javascript:alert(1)" "x")
        "https://example.com/files/" = none ∧
      parseAnchorLink (anchorNode "data:text/html;base64,SGVsbG8=" "bad")
        "https://example.com/No-Intro/" = none ∧
      parseAnchorLink (anchorNode "/files/No-Intro/" "No-Intro/")
        "https://example.com/files/" =
        some ⟨"No-Intro", "https://example.com/files/No-Intro/", "", "", true⟩ :=
  ⟨parseAnchorLink_guard_none dirURL a u hres hg,
    by decide, by decide, by decide, by decide, by decide, by decide, by decide,
    by decide⟩

/-- C1 witness at a concrete input: the prefix-lookalike sibling URL. -/
theorem C1_scope_guard_witness :
    resolveURL "https://example.com/files/"
        (findLink (anchorNode "https://example.com/filesomething/dir/" "dir")).1 =
      some "https://example.com/filesomething/dir/" ∧
    isLikelyListingEntryURL "https://example.com/files/"
        "https://example.com/filesomething/dir/" = false ∧
    parseAnchorLink (anchorNode "https://example.com/filesomething/dir/" "dir")
        "https://example.com/files/" = none :=
  ⟨by decide, by decide,
    (C1_scope_guard "https://example.com/files/"
      (anchorNode "https://example.com/filesomething/dir/" "dir")
      "https://example.com/filesomething/dir/" (by decide) (by decide)).1⟩

theorem addEntry_inv {st : List Entry × List String} (h : DedupInv st)
    (e : Entry) : DedupInv (addEntry st e) := by
  by_cases hnot : e.URL ∈ st.2
  · have hEq : addEntry st e = st := by simp [addEntry, hnot]
    rw [hEq]
    exact h
  · have hEq : addEntry st e = (st.1 ++ [e], e.URL :: st.2) := by
      simp [addEntry, hnot]
    rw [hEq]
    obtain ⟨hpw, hmem⟩ := h
    refine ⟨?_, ?_⟩
    · rw [List.pairwise_append]
      refine ⟨hpw, List.pairwise_singleton _ _, ?_⟩
      intro a ha b hb
      rw [List.mem_singleton] at hb
      subst hb
      intro hEq
      exact hnot (hEq ▸ hmem a ha)
    · intro x hx
      rcases List.mem_append.mp hx with hx | hx
      · exact List.mem_cons_of_mem _ (hmem x hx)
      · rw [List.mem_singleton] at hx
        subst hx
        exact List.mem_cons_self _ _

mutual
theorem walkNode_inv (dirURL : String) (n : Node) (st : List Entry × List String)
    (h : DedupInv st) : DedupInv (walkNode dirURL st n) := by
  cases n with
  | text s => simpa [walkNode] using h
  | elem tag attrs children =>
    rw [walkNode]
    refine walkNodeList_inv dirURL children _ ?_
    have h1 : DedupInv (if tag == "tr" then
        match parseTableRow (.elem tag attrs children) dirURL with
        | some e => addEntry st e
        | none => st
      else st) := by
      split
      · split
        · exact addEntry_inv h _
        · exact h
      · exact h
    split
    · split
      · exact addEntry_inv h1 _
      · exact h1
    · exact h1

theorem walkNodeList_inv (dirURL : String) (ns : NodeList)
    (st : List Entry × List String) (h : DedupInv st) :
    DedupInv (walkNodeList dirURL st ns) := by
  cases ns with
  | nil => simpa [walkNodeList] using h
  | cons n rest =>
    rw [walkNodeList]
    exact walkNodeList_inv dirURL rest _ (walkNode_inv dirURL n st h)
end

set_option maxHeartbeats 4000000 in
/-- C9: the parser's output never contains two entries with the same
resolved URL (the row pass and the anchor pass share one dedup set), and
on the dedup test page — the same file linked from a table row and a bare
anchor — exactly one Entry (the table-row one) is produced. -/
theorem C9_parse_dedup (doc : Node) (dirURL : String) :
    (parseDirectoryListing doc dirURL).Pairwise (fun e1 e2 => e1.URL ≠ e2.URL) ∧
      parseDirectoryListing sampleDedupDoc "https://example.com/No-Intro/" =
        [⟨"game.zip", "https://example.com/No-Intro/game.zip", "1.2M",
          "2026-01-01", false⟩] := by
  constructor
  · exact (walkNode_inv dirURL doc ([], []) ⟨List.Pairwise.nil, by simp⟩).1
  · decide

/-- C10 witness at a concrete input: an operator-only query issues no
engine query. -/
theorem C10_empty_query_no_search_witness :
    sanitizeFTS5Query "( ) [ ]" = "" ∧
      (Search (fun _ _ => Except.ok ([] : List Nat)) "( ) [ ]" 50 =
          ⟨[], none, []⟩ ∧
        SearchInCollection (fun _ _ _ => Except.ok ([] : List Nat)) "( ) [ ]"
            "No-Intro" 50 = ⟨[], none, []⟩ ∧
        sanitizeFTS5Query "" = "" ∧ sanitizeFTS5Query "   " = "" ∧
        sanitizeFTS5Query "()\x7b\x7d[]^" = "") :=
  ⟨by decide, C10_empty_query_no_search Nat (fun _ _ => Except.ok [])
    (fun _ _ _ => Except.ok []) "( ) [ ]" "No-Intro" 50 (by decide)⟩

/-- C3: Enqueue is idempotent on live items: re-enqueueing the same
(name, url, subdir) right after any Enqueue returns the same item with
created=false and an unchanged state; and when no non-Failed item matches
the URL or destination path (e.g. after the matching item Failed), Enqueue
creates and returns a fresh Queued item with created=true. -/
theorem C3_enqueue_idempotent (m : ManagerState) (n u s : String) :
    (∀ (m1 : ManagerState) (it : Item) (c : Bool),
      Enqueue m n u s = (m1, it, c) → Enqueue m1 n u s = (m1, it, false)) ∧
    (m.items.find? (isDuplicateOf u (destPathOf m n s)) = none →
      ∃ it : Item, it.status = .Queued ∧
        Enqueue m n u s =
          ({ m with items := m.items ++ [it], nextID := m.nextID + 1 }, it, true)) := by
  constructor
  · intro m1 it c h
    simp only [Enqueue] at h
    cases hf : m.items.find? (isDuplicateOf u (destPathOf m n s)) with
    | some it' =>
      rw [hf] at h
      injection h with h1 h23
      injection h23 with h2 h3
      subst h1
      subst h2
      subst h3
      simp only [Enqueue]
      rw [hf]
    | none =>
      rw [hf] at h
      injection h with h1 h23
      injection h23 with h2 h3
      subst h1
      subst h2
      subst h3
      simp only [Enqueue]
      rw [show destPathOf { m with
            items := m.items ++ [⟨m.nextID + 1, n, u, destPathOf m n s, .Queued⟩],
            nextID := m.nextID + 1 } n s = destPathOf m n s from rfl]
      rw [List.find?_append, hf, Option.none_or, List.find?_singleton]
      simp [isDuplicateOf]
  · intro hf
    refine ⟨⟨m.nextID + 1, n, u, destPathOf m n s, .Queued⟩, rfl, ?_⟩
    simp only [Enqueue]
    rw [hf]

/-- C3 witness: enqueue, re-enqueue (same item, created=false), and
re-enqueue after the item Failed (new Queued item, created=true). -/
theorem C3_enqueue_idempotent_witness :
    Enqueue (⟨"dl", [], 0⟩ : ManagerState) "a.zip" "http://h/a.zip" "" =
      (⟨"dl", [⟨1, "a.zip", "http://h/a.zip", "dl/a.zip", .Queued⟩], 1⟩,
        ⟨1, "a.zip", "http://h/a.zip", "dl/a.zip", .Queued⟩, true) ∧
    Enqueue (⟨"dl", [⟨1, "a.zip", "http://h/a.zip", "dl/a.zip", .Queued⟩], 1⟩ :
        ManagerState) "a.zip" "http://h/a.zip" "" =
      (⟨"dl", [⟨1, "a.zip", "http://h/a.zip", "dl/a.zip", .Queued⟩], 1⟩,
        ⟨1, "a.zip", "http://h/a.zip", "dl/a.zip", .Queued⟩, false) ∧
    (∃ it : Item, it.status = .Queued ∧
      Enqueue (⟨"dl", [⟨1, "a.zip", "http://h/a.zip", "dl/a.zip", .Failed⟩], 1⟩ :
          ManagerState) "a.zip" "http://h/a.zip" "" =
        ({ downloadDir := "dl",
           items := [⟨1, "a.zip", "http://h/a.zip", "dl/a.zip", .Failed⟩] ++ [it],
           nextID := 2 }, it, true)) :=
  ⟨by decide,
    (C3_enqueue_idempotent ⟨"dl", [], 0⟩ "a.zip" "http://h/a.zip" "").1
      ⟨"dl", [⟨1, "a.zip", "http://h/a.zip", "dl/a.zip", .Queued⟩], 1⟩
      ⟨1, "a.zip", "http://h/a.zip", "dl/a.zip", .Queued⟩ true (by decide),
    (C3_enqueue_idempotent
      ⟨"dl", [⟨1, "a.zip", "http://h/a.zip", "dl/a.zip", .Failed⟩], 1⟩
      "a.zip" "http://h/a.zip" "").2 (by decide)⟩

/-- C4 counterexample: Pause on a Queued item performs Queued → Paused and
Cancel on a Queued item performs Queued → Failed; neither is an edge of
the claimed state machine. -/
theorem C4_state_machine_counterexample :
    pauseStatus .Queued = .Paused ∧ ((.Queued, .Paused) ∈ claimedEdges → False) ∧
      cancelStatus .Queued = .Failed ∧
      ((.Queued, .Failed) ∈ claimedEdges → False) := by decide

/-- C4 (amended): every status change performed by Pause, Resume, Retry,
Cancel/CancelAll and processItem follows an edge of the state machine
extended with Queued → Paused (pausing a not-yet-started item) and
Queued → Failed, Paused → Failed (cancelling a queued or paused item);
processItem is only entered with a Queued, Paused, or cancelled-Failed
item and only finishes from Active (or a concurrently Paused/cancelled
item with a cancellation error); Completed is terminal, and only Retry
moves an item out of Failed. -/
theorem C4_state_machine_amended :
    (∀ s : Status, pauseStatus s = s ∨ (s, pauseStatus s) ∈ amendedEdges) ∧
    (∀ s : Status, resumeStatus s = s ∨ (s, resumeStatus s) ∈ amendedEdges) ∧
    (∀ s : Status, retryStatus s = s ∨ (s, retryStatus s) ∈ amendedEdges) ∧
    (∀ s : Status, cancelStatus s = s ∨ (s, cancelStatus s) ∈ amendedEdges) ∧
    (∀ (c : Bool) (s : Status),
      s = .Queued ∨ s = .Paused ∨ (s = .Failed ∧ c = true) →
      processStartStatus c s = s ∨ (s, processStartStatus c s) ∈ amendedEdges) ∧
    (∀ (o : Option DLErr) (s : Status),
      s = .Active ∨ (o = some .canceled ∧ (s = .Paused ∨ s = .Failed)) →
      processFinishStatus o s = s ∨ (s, processFinishStatus o s) ∈ amendedEdges) ∧
    (pauseStatus .Completed = .Completed ∧ resumeStatus .Completed = .Completed ∧
      retryStatus .Completed = .Completed ∧ cancelStatus .Completed = .Completed) ∧
    (pauseStatus .Failed = .Failed ∧ resumeStatus .Failed = .Failed ∧
      cancelStatus .Failed = .Failed ∧ processStartStatus true .Failed = .Failed ∧
      retryStatus .Failed = .Queued) := by
  refine ⟨?_, ?_, ?_, ?_, ?_, ?_, by decide, by decide⟩
  · intro s; cases s <;> decide
  · intro s; cases s <;> decide
  · intro s; cases s <;> decide
  · intro s; cases s <;> decide
  · intro c s h
    rcases h with rfl | rfl | ⟨rfl, rfl⟩
    · cases c <;> decide
    · cases c <;> decide
    · decide
  · intro o s h
    rcases h with rfl | ⟨rfl, rfl | rfl⟩
    · rcases o with _ | e
      · decide
      · cases e <;> decide
    · decide
    · decide

/-- C4 witness: the processItem entry transition at a concrete input. -/
theorem C4_state_machine_amended_witness :
    ((.Queued : Status) = .Queued ∨ (.Queued : Status) = .Paused ∨
      ((.Queued : Status) = .Failed ∧ true = true)) ∧
    (processStartStatus true .Queued = .Queued ∨
      (.Queued, processStartStatus true .Queued) ∈ amendedEdges) :=
  ⟨Or.inl rfl,
    C4_state_machine_amended.2.2.2.2.1 true .Queued (Or.inl rfl)⟩

/-- C2: with an existing .part file of length L > 0 the transfer reads L
as the resume offset and sends "Range: bytes=L-"; when the server answers
206 the part content is appended to, so the final file is the part content
followed by the received bytes (length L + received); with no .part file
no Range header is sent and the final file is exactly the received body. -/
theorem C2_resume_append (server : Option String → DLResponse) (url : String)
    (part : List Nat) (hL : 0 < part.length)
    (h206 : (server (rangeHeader (part.length : Int))).status = 206)
    (hct : strContains (lowerStr ((server (rangeHeader (part.length : Int))).contentType))
        "text/html" = false) :
    rangeHeader (part.length : Int) =
      some ("bytes=" ++ toString (part.length : Int) ++ "-") ∧
    managerDownloadFile server url (some part) = .ok {
      finalFile := part ++ (server (rangeHeader (part.length : Int))).body,
      totalBytes := if 0 < (server (rangeHeader (part.length : Int))).contentLength
        then (part.length : Int) + (server (rangeHeader (part.length : Int))).contentLength
        else 0,
      doneBytes := (part.length : Int) +
        (((server (rangeHeader (part.length : Int))).body.length : Int)),
      usedRange := rangeHeader (part.length : Int) } ∧
    (part ++ (server (rangeHeader (part.length : Int))).body).length =
      part.length + (server (rangeHeader (part.length : Int))).body.length ∧
    (∀ server2 : Option String → DLResponse,
      (server2 none).status = 200 →
      strContains (lowerStr ((server2 none).contentType)) "text/html" = false →
      managerDownloadFile server2 url none = .ok {
        finalFile := (server2 none).body,
        totalBytes := if 0 < (server2 none).contentLength
          then (server2 none).contentLength else 0,
        doneBytes := ((server2 none).body.length : Int),
        usedRange := none }) := by
  have hLi : (0 : Int) < (part.length : Int) := by exact_mod_cast hL
  refine ⟨by simp [rangeHeader, hLi], ?_, List.length_append _ _, ?_⟩
  · unfold managerDownloadFile clientDownloadFile
    simp only [h206, hct]
    norm_num
  · intro server2 h200 hct2
    unfold managerDownloadFile clientDownloadFile
    simp only [rangeHeader]
    norm_num
    simp [h200, hct2]

/-- C2 witness: a 3-byte part file resumed with two received bytes, and a
fresh download with no part file. -/
theorem C2_resume_append_witness :
    (0 < ([1, 2, 3] : List Nat).length ∧
      (srvResume (rangeHeader (([1, 2, 3] : List Nat).length : Int))).status = 206) ∧
    managerDownloadFile srvResume "http://h/f.zip" (some [1, 2, 3]) =
      .ok ⟨[1, 2, 3, 9, 8], 5, 5, some "bytes=3-"⟩ ∧
    managerDownloadFile srvPlain "http://h/f.zip" none = .ok ⟨[7, 7], 2, 2, none⟩ := by
  refine ⟨⟨by decide, by decide⟩, ?_, ?_⟩
  · have h := (C2_resume_append srvResume "http://h/f.zip" [1, 2, 3] (by decide)
      (by decide) (by decide)).2.1
    rw [h]
    exact congrArg Except.ok (by decide)
  · have h := (C2_resume_append srvResume "http://h/f.zip" [1, 2, 3] (by decide)
      (by decide) (by decide)).2.2.2 srvPlain (by decide) (by decide)
    rw [h]
    exact congrArg Except.ok (by decide)

theorem filesOf_clear_ne {db : IndexDB} {p q : String} (hne : ¬(q = p)) :
    filesOf (clearDirectoryFiles db p) q = filesOf db q := by
  unfold filesOf clearDirectoryFiles
  rw [List.filter_filter]
  apply List.filter_congr
  intro f _
  by_cases hp : f.dirPath = p
  · have hfq : (f.dirPath == q) = false := by
      rw [hp]
      simp
      intro h
      exact hne h.symm
    simp [hfq]
  · simp [hp]

theorem filesOf_insert_ne {db : IndexDB} {p q : String} {batch : List FileRow}
    (hb : ∀ f ∈ batch, f.dirPath = p) (hne : ¬(q = p)) :
    filesOf (insertFileBatch db batch) q = filesOf db q := by
  unfold filesOf insertFileBatch
  rw [List.filter_append]
  have : batch.filter (fun f => f.dirPath == q) = [] := by
    rw [List.filter_eq_nil_iff]
    intro f hf
    simp [hb f hf]
    intro hEq
    exact absurd hEq.symm hne
  rw [this, List.append_nil]

theorem filesOf_mark {db : IndexDB} {p q : String} {now : Int} :
    filesOf (markDirectoryCrawled db p now) q = filesOf db q := rfl

theorem filesOf_upsert {db : IndexDB} {p q : String} :
    filesOf (upsertDirectory db p) q = filesOf db q := by
  unfold filesOf upsertDirectory
  split <;> rfl

theorem lastCrawledOf_upsert_ne {db : IndexDB} {p q : String} (hne : ¬(q = p)) :
    lastCrawledOf (upsertDirectory db p) q = lastCrawledOf db q := by
  unfold lastCrawledOf upsertDirectory
  split
  · rfl
  · rw [show ({ db with dirs := db.dirs ++ [⟨p, none⟩] } : IndexDB).dirs =
        db.dirs ++ [⟨p, none⟩] from rfl]
    rw [List.find?_append]
    have : List.find? (fun d => d.path == q) [(⟨p, none⟩ : DirRow)] = none := by
      simp
      intro hEq
      exact absurd hEq.symm hne
    rw [this, Option.or_none]

theorem mark_find_map_ne {p q : String} {now : Int} (hne : ¬(q = p)) :
    ∀ ds : List DirRow,
      (List.find? (fun d => d.path == q) (ds.map (fun d =>
        if d.path == p then { d with lastCrawled := some now } else d))).map
          (fun d => d.lastCrawled) =
      (List.find? (fun d => d.path == q) ds).map (fun d => d.lastCrawled) := by
  intro ds
  induction ds with
  | nil => rfl
  | cons d rest ih =>
    rw [List.map_cons]
    by_cases hp : d.path = p
    · have hq : (d.path == q) = false := by
        rw [hp]
        simp
        intro h
        exact hne h.symm
      have hbp : (d.path == p) = true := by simpa using hp
      rw [show ((if d.path == p then { d with lastCrawled := some now }
          else d) : DirRow) = { d with lastCrawled := some now } by simp [hbp]]
      rw [List.find?_cons, List.find?_cons]
      rw [show (({ d with lastCrawled := some now } : DirRow).path == q) = false
        from hq]
      exact ih
    · have hbp : (d.path == p) = false := by simpa using hp
      rw [show ((if d.path == p then { d with lastCrawled := some now }
          else d) : DirRow) = d by simp [hbp]]
      rw [List.find?_cons, List.find?_cons]
      cases hdq : (d.path == q) with
      | true => rfl
      | false => exact ih

theorem lastCrawledOf_mark_ne {db : IndexDB} {p q : String} {now : Int}
    (hne : ¬(q = p)) :
    lastCrawledOf (markDirectoryCrawled db p now) q = lastCrawledOf db q :=
  mark_find_map_ne hne db.dirs

theorem mark_find_map_self {p : String} {now : Int} :
    ∀ ds : List DirRow, (∃ d ∈ ds, d.path = p) →
      (List.find? (fun d => d.path == p) (ds.map (fun d =>
        if d.path == p then { d with lastCrawled := some now } else d))).map
          (fun d => d.lastCrawled) = some (some now) := by
  intro ds
  induction ds with
  | nil => intro hex; obtain ⟨d, hd, _⟩ := hex; cases hd
  | cons d rest ih =>
    intro hex
    rw [List.map_cons]
    by_cases hp : d.path = p
    · have hbp : (d.path == p) = true := by simpa using hp
      rw [show ((if d.path == p then { d with lastCrawled := some now }
          else d) : DirRow) = { d with lastCrawled := some now } by simp [hbp]]
      rw [List.find?_cons]
      rw [show (({ d with lastCrawled := some now } : DirRow).path == p) = true
        from hbp]
      rfl
    · have hbp : (d.path == p) = false := by simpa using hp
      rw [show ((if d.path == p then { d with lastCrawled := some now }
          else d) : DirRow) = d by simp [hbp]]
      rw [List.find?_cons, hbp]
      apply ih
      obtain ⟨d', hd', hpd'⟩ := hex
      rcases List.mem_cons.mp hd' with rfl | hmem
      · exact absurd hpd' hp
      · exact ⟨d', hmem, hpd'⟩

theorem lastCrawledOf_mark_self {db : IndexDB} {p : String} {now : Int}
    (hex : ∃ d ∈ db.dirs, d.path = p) :
    lastCrawledOf (markDirectoryCrawled db p now) p = some (some now) :=
  mark_find_map_self db.dirs hex

theorem upsert_mem_self (db : IndexDB) (p : String) :
    ∃ d ∈ (upsertDirectory db p).dirs, d.path = p := by
  unfold upsertDirectory
  split
  next h =>
    obtain ⟨d, hd, hbd⟩ := List.any_eq_true.mp h
    exact ⟨d, hd, by simpa using hbd⟩
  next h =>
    exact ⟨⟨p, none⟩, by simp, rfl⟩

theorem filesOf_crawl_body {db : IndexDB} {p q : String} {now : Int}
    {batch : List FileRow} (hb : ∀ f ∈ batch, f.dirPath = p) (hne : ¬(q = p)) :
    filesOf (markDirectoryCrawled
      (insertFileBatch (clearDirectoryFiles (upsertDirectory db p) p) batch)
      p now) q = filesOf db q := by
  rw [filesOf_mark, filesOf_insert_ne hb hne, filesOf_clear_ne hne, filesOf_upsert]

theorem fileBatch_dirPath (dirPath : String) (entries : List Entry) :
    ∀ f ∈ fileBatch dirPath entries, f.dirPath = dirPath := by
  intro f hf
  obtain ⟨e, _, rfl⟩ := List.mem_map.mp hf
  rfl

theorem subdirPaths_longer (dirPath : String) (entries : List Entry) :
    ∀ sd ∈ subdirPaths dirPath entries,
      dirPath.data.length < sd.data.length := by
  intro sd hsd
  obtain ⟨e, _, rfl⟩ := List.mem_map.mp hsd
  simp [String.data_append]

theorem crawlDir_succ (L : String → Option (List Entry)) (F : Bool)
    (S N : Int) (fuel : Nat) (st : CrawlState) (p : String) :
    crawlDir L F S N (fuel + 1) st p =
      if !F && !(isDirectoryStale st.db p S N) then
        ({ st with dirsProcessed := st.dirsProcessed + 1 }, false)
      else
        match L p with
        | none =>
          ({ st with errors := st.errors + 1, fetched := st.fetched ++ [p] },
            true)
        | some entries =>
          ((subdirPaths p entries).foldl (crawlStep L F S N fuel)
            (crawlBody st p N entries), false) := rfl

theorem filesOf_clear_self {db : IndexDB} {p : String} :
    filesOf (clearDirectoryFiles db p) p = [] := by
  unfold filesOf clearDirectoryFiles
  rw [List.filter_filter]
  have h : ∀ f ∈ db.files, ((f.dirPath == p) && !(f.dirPath == p)) = false := by
    intro f _
    cases f.dirPath == p <;> rfl
  rw [List.filter_congr h]
  exact List.filter_false _

theorem filesOf_insert {db : IndexDB} {p : String} {fs : List FileRow} :
    filesOf (insertFileBatch db fs) p =
      filesOf db p ++ fs.filter (fun f => f.dirPath == p) := by
  unfold filesOf insertFileBatch
  exact List.filter_append _ _

theorem crawlBody_files_self (st : CrawlState) (p : String) (N : Int)
    (entries : List Entry) :
    filesOf (crawlBody st p N entries).db p = fileBatch p entries := by
  unfold crawlBody
  rw [filesOf_mark]
  split
  next hemp =>
    rw [filesOf_clear_self]
    exact (List.isEmpty_iff.mp hemp).symm
  next _ =>
    rw [filesOf_insert, filesOf_clear_self, List.nil_append]
    apply List.filter_eq_self.mpr
    intro f hf
    simp [fileBatch_dirPath p entries f hf]

theorem crawlBody_last_self (st : CrawlState) (p : String) (N : Int)
    (entries : List Entry) :
    lastCrawledOf (crawlBody st p N entries).db p = some (some N) := by
  unfold crawlBody
  apply lastCrawledOf_mark_self
  split
  · exact upsert_mem_self st.db p
  · exact upsert_mem_self st.db p

theorem crawlBody_files_ne (st : CrawlState) (p : String) (N : Int)
    (entries : List Entry) {q : String} (hne : ¬(q = p)) :
    filesOf (crawlBody st p N entries).db q = filesOf st.db q := by
  unfold crawlBody
  rw [filesOf_mark]
  split
  · rw [filesOf_clear_ne hne, filesOf_upsert]
  · rw [filesOf_insert, filesOf_clear_ne hne, filesOf_upsert]
    have h : (fileBatch p entries).filter (fun f => f.dirPath == q) = [] := by
      rw [List.filter_eq_nil_iff]
      intro f hf
      rw [fileBatch_dirPath p entries f hf]
      simp
      intro hEq
      exact absurd hEq.symm hne
    rw [h, List.append_nil]

theorem crawlBody_last_ne (st : CrawlState) (p : String) (N : Int)
    (entries : List Entry) {q : String} (hne : ¬(q = p)) :
    lastCrawledOf (crawlBody st p N entries).db q = lastCrawledOf st.db q := by
  unfold crawlBody
  rw [lastCrawledOf_mark_ne hne]
  have hclear : ∀ dbx : IndexDB,
      lastCrawledOf (clearDirectoryFiles dbx p) q = lastCrawledOf dbx q :=
    fun _ => rfl
  have hins : ∀ (dbx : IndexDB) (fs : List FileRow),
      lastCrawledOf (insertFileBatch dbx fs) q = lastCrawledOf dbx q :=
    fun _ _ => rfl
  split
  · rw [hclear, lastCrawledOf_upsert_ne hne]
  · rw [hins, hclear, lastCrawledOf_upsert_ne hne]

theorem foldl_crawlStep_preserves (L : String → Option (List Entry)) (F : Bool)
    (S N : Int) (fuel : Nat)
    (ih : ∀ (p q : String), q.data.length < p.data.length → ∀ st : CrawlState,
      filesOf (crawlDir L F S N fuel st p).1.db q = filesOf st.db q ∧
      lastCrawledOf (crawlDir L F S N fuel st p).1.db q = lastCrawledOf st.db q ∧
      (∀ x ∈ st.fetched, x ∈ (crawlDir L F S N fuel st p).1.fetched)) :
    ∀ (sds : List String) (q : String),
      (∀ sd ∈ sds, q.data.length < sd.data.length) → ∀ st : CrawlState,
      filesOf (sds.foldl (crawlStep L F S N fuel) st).db q = filesOf st.db q ∧
      lastCrawledOf (sds.foldl (crawlStep L F S N fuel) st).db q =
        lastCrawledOf st.db q ∧
      (∀ x ∈ st.fetched, x ∈ (sds.foldl (crawlStep L F S N fuel) st).fetched) := by
  intro sds
  induction sds with
  | nil => intro q _ st; exact ⟨rfl, rfl, fun x hx => hx⟩
  | cons sd rest ihl =>
    intro q hlen st
    rw [List.foldl_cons]
    have hsd : q.data.length < sd.data.length := hlen sd (List.mem_cons_self _ _)
    obtain ⟨h1, h2, h3⟩ := ih sd q hsd st
    have hstep_db : (crawlStep L F S N fuel st sd).db =
        (crawlDir L F S N fuel st sd).1.db := by
      simp only [crawlStep]
      split <;> rfl
    have hstep_f : (crawlStep L F S N fuel st sd).fetched =
        (crawlDir L F S N fuel st sd).1.fetched := by
      simp only [crawlStep]
      split <;> rfl
    obtain ⟨g1, g2, g3⟩ := ihl q (fun x hx => hlen x (List.mem_cons_of_mem _ hx))
      (crawlStep L F S N fuel st sd)
    refine ⟨?_, ?_, ?_⟩
    · rw [g1, hstep_db, h1]
    · rw [g2, hstep_db, h2]
    · intro x hx
      exact g3 x (by rw [hstep_f]; exact h3 x hx)

theorem crawlDir_preserves (L : String → Option (List Entry)) (F : Bool)
    (S N : Int) :
    ∀ (fuel : Nat) (p q : String), q.data.length < p.data.length →
      ∀ st : CrawlState,
      filesOf (crawlDir L F S N fuel st p).1.db q = filesOf st.db q ∧
      lastCrawledOf (crawlDir L F S N fuel st p).1.db q = lastCrawledOf st.db q ∧
      (∀ x ∈ st.fetched, x ∈ (crawlDir L F S N fuel st p).1.fetched) := by
  intro fuel
  induction fuel with
  | zero => intro p q _ st; exact ⟨rfl, rfl, fun x hx => hx⟩
  | succ fuel ih =>
    intro p q hq st
    rw [crawlDir_succ]
    split
    · exact ⟨rfl, rfl, fun x hx => hx⟩
    · cases hl : L p with
      | none =>
        refine ⟨rfl, rfl, fun x hx => ?_⟩
        exact List.mem_append_left _ hx
      | some entries =>
        have hne : ¬(q = p) := by
          intro h
          rw [h] at hq
          exact lt_irrefl _ hq
        have hlen := subdirPaths_longer p entries
        obtain ⟨g1, g2, g3⟩ := foldl_crawlStep_preserves L F S N fuel ih
          (subdirPaths p entries) q
          (fun sd hsd => lt_trans hq (hlen sd hsd)) (crawlBody st p N entries)
        refine ⟨?_, ?_, ?_⟩
        · rw [g1, crawlBody_files_ne st p N entries hne]
        · rw [g2, crawlBody_last_ne st p N entries hne]
        · intro x hx
          apply g3
          exact List.mem_append_left _ hx

/-- C5: with force=false a directory crawled within the freshness window is
skipped entirely — no listing fetch, the database untouched, DirsProcessed
still incremented; with force=true, or when the directory is unknown, its
timestamp null, or older than the window, the listing is fetched, the
directory's FileRecords are replaced in one batch by the rows parsed from
the listing, and its last-crawled timestamp is set to the crawl time. -/
theorem C5_crawl_staleness (L : String → Option (List Entry)) (force : Bool)
    (S N : Int) (fuel : Nat) (st : CrawlState) (dirPath : String)
    (entries : List Entry) :
    (force = false → isDirectoryStale st.db dirPath S N = false →
      crawlDir L force S N (fuel + 1) st dirPath =
        ({ st with dirsProcessed := st.dirsProcessed + 1 }, false)) ∧
    ((force = true ∨ isDirectoryStale st.db dirPath S N = true) →
      L dirPath = some entries →
      (crawlDir L force S N (fuel + 1) st dirPath).2 = false ∧
      dirPath ∈ (crawlDir L force S N (fuel + 1) st dirPath).1.fetched ∧
      filesOf (crawlDir L force S N (fuel + 1) st dirPath).1.db dirPath =
        fileBatch dirPath entries ∧
      lastCrawledOf (crawlDir L force S N (fuel + 1) st dirPath).1.db dirPath =
        some (some N)) ∧
    (st.db.dirs.find? (fun d => d.path == dirPath) = none →
      isDirectoryStale st.db dirPath S N = true) ∧
    (∀ d : DirRow, st.db.dirs.find? (fun d => d.path == dirPath) = some d →
      d.lastCrawled = none → isDirectoryStale st.db dirPath S N = true) ∧
    (∀ (d : DirRow) (t : Int),
      st.db.dirs.find? (fun d => d.path == dirPath) = some d →
      d.lastCrawled = some t →
      (isDirectoryStale st.db dirPath S N = true ↔ S * 24 < N - t)) := by
  refine ⟨?_, ?_, ?_, ?_, ?_⟩
  · intro hF hstale
    rw [crawlDir_succ, hF, hstale]
    rfl
  · intro hcond hlist
    have hguard : (!force && !(isDirectoryStale st.db dirPath S N)) = false := by
      rcases hcond with rfl | hs
      · rfl
      · rw [hs]
        simp
    rw [crawlDir_succ, hguard]
    simp only [Bool.false_eq_true, if_false]
    rw [hlist]
    have hlen := subdirPaths_longer dirPath entries
    obtain ⟨g1, g2, g3⟩ := foldl_crawlStep_preserves L force S N fuel
      (fun p q h st' => crawlDir_preserves L force S N fuel p q h st')
      (subdirPaths dirPath entries) dirPath hlen (crawlBody st dirPath N entries)
    refine ⟨rfl, ?_, ?_, ?_⟩
    · apply g3
      exact List.mem_append_right _ (List.mem_singleton.mpr rfl)
    · rw [g1, crawlBody_files_self]
    · rw [g2, crawlBody_last_self]
  · intro h
    unfold isDirectoryStale
    rw [h]
  · intro d h hn
    unfold isDirectoryStale
    rw [h]
    simp [hn]
  · intro d t h ht
    unfold isDirectoryStale
    rw [h]
    simp [ht]

/-- C5 witness: a freshly-crawled directory is skipped with the counter
still bumped, and a forced crawl fetches the listing, installs the file
batch and stamps the crawl time. -/
theorem C5_crawl_staleness_witness :
    (isDirectoryStale ⟨[⟨"A/", some 100⟩], []⟩ "A/" 7 100 = false ∧
      crawlDir (fun _ => some []) false 7 100 2
          ⟨⟨[⟨"A/", some 100⟩], []⟩, 0, 0, 0, []⟩ "A/" =
        ({ (⟨⟨[⟨"A/", some 100⟩], []⟩, 0, 0, 0, []⟩ : CrawlState) with
            dirsProcessed := 0 + 1 }, false)) ∧
    ((crawlDir (fun p => if p = "A/" then
          some [⟨"f.zip", "u", "1", "d", false⟩, ⟨"Sub", "u2", "-", "d", true⟩]
        else some []) true 7 100 2 ⟨⟨[], []⟩, 0, 0, 0, []⟩ "A/").2 = false ∧
      "A/" ∈ (crawlDir (fun p => if p = "A/" then
          some [⟨"f.zip", "u", "1", "d", false⟩, ⟨"Sub", "u2", "-", "d", true⟩]
        else some []) true 7 100 2 ⟨⟨[], []⟩, 0, 0, 0, []⟩ "A/").1.fetched ∧
      filesOf (crawlDir (fun p => if p = "A/" then
          some [⟨"f.zip", "u", "1", "d", false⟩, ⟨"Sub", "u2", "-", "d", true⟩]
        else some []) true 7 100 2 ⟨⟨[], []⟩, 0, 0, 0, []⟩ "A/").1.db "A/" =
        fileBatch "A/"
          [⟨"f.zip", "u", "1", "d", false⟩, ⟨"Sub", "u2", "-", "d", true⟩] ∧
      lastCrawledOf (crawlDir (fun p => if p = "A/" then
          some [⟨"f.zip", "u", "1", "d", false⟩, ⟨"Sub", "u2", "-", "d", true⟩]
        else some []) true 7 100 2 ⟨⟨[], []⟩, 0, 0, 0, []⟩ "A/").1.db "A/" =
        some (some 100)) :=
  ⟨⟨by decide,
    (C5_crawl_staleness (fun _ => some []) false 7 100 1
      ⟨⟨[⟨"A/", some 100⟩], []⟩, 0, 0, 0, []⟩ "A/" []).1 rfl (by decide)⟩,
    (C5_crawl_staleness (fun p => if p = "A/" then
        some [⟨"f.zip", "u", "1", "d", false⟩, ⟨"Sub", "u2", "-", "d", true⟩]
      else some []) true 7 100 1 ⟨⟨[], []⟩, 0, 0, 0, []⟩ "A/"
      [⟨"f.zip", "u", "1", "d", false⟩, ⟨"Sub", "u2", "-", "d", true⟩]).2.1
      (Or.inl rfl) (by decide)⟩

end Myrient
